import Mathlib

/-!
Verification of the DYPCET chatbot route (`src/app/api/chat/route.ts`) against its
natural-language specification.  Text is modelled as `List Char`; JavaScript `Map`s as
association lists where the most recent `set` shadows earlier entries; the regex searches
of the syllabus locator as specialised, backtrack-free matchers over `List Char`.
-/

set_option maxRecDepth 4000

abbrev Str := List Char

/-- JavaScript whitespace class `\s`, restricted to its ASCII members (space, tab,
newline, carriage return, vertical tab, form feed). -/
def jsWs (c : Char) : Bool :=
  c = ' ' || c = '\t' || c = '\n' || c = '\r' || c = '\x0b' || c = '\x0c'

/-- `String.prototype.trim` (strip leading and trailing whitespace). -/
def trimL (s : Str) : Str :=
  ((s.dropWhile jsWs).reverse.dropWhile jsWs).reverse

def collapseWsGo (prevWs : Bool) : Str → Str
  | [] => []
  | c :: s =>
    if jsWs c then (if prevWs then collapseWsGo true s else ' ' :: collapseWsGo true s)
    else c :: collapseWsGo false s

/-- `str.replace(/\s+/g, ' ')`: every maximal whitespace run becomes one space. -/
def collapseWs (s : Str) : Str := collapseWsGo false s

def runsGo (cur : Str) : Str → List Str
  | [] => if cur = [] then [] else [cur.reverse]
  | c :: s =>
    if jsWs c then (if cur = [] then runsGo [] s else cur.reverse :: runsGo [] s)
    else runsGo (c :: cur) s

/-- The maximal non-whitespace runs of `s`; equals
`s.split(/\s+/).filter(w => w.length > 0)` in JavaScript. -/
def nonWsRuns (s : Str) : List Str := runsGo [] s

/-- `s.split(/\s+/).filter(word => word.length > 0).length` — the token count used by
`upload_document` and `query_document`. -/
def jsWordCount (s : Str) : Nat := (nonWsRuns s).length

/- ## Document store (`documentStore` / `documentFileNameMap`) -/

abbrev SMap := List (Str × Str)

/-- `Map.prototype.get`: the most recently `set` binding wins (entries are consed). -/
def mapGet : SMap → Str → Option Str
  | [], _ => none
  | (k, v) :: rest, key => if key = k then some v else mapGet rest key

/-- `Map.prototype.set` modelled by consing; `mapGet` sees the newest binding. -/
def mapSet (m : SMap) (k v : Str) : SMap := (k, v) :: m

structure Store where
  byId : SMap
  byName : SMap
deriving DecidableEq

def emptyStore : Store := ⟨[], []⟩

inductive UploadResult where
  | unsupported
  | empty
  | lowContent (wordCount : Nat)
  | stored
deriving DecidableEq

def mimePdf : Str := "application/pdf".toList
def mimeText : Str := "text/plain".toList
def mimeMarkdown : Str := "text/markdown".toList

/-- Embeds `upload_document` (route.ts 317–444).  The byte-level extraction
(`extractTextFromPDF` on base64 input / UTF-8 decode) is modelled by passing the
extracted text directly; everything from the file-type dispatch on mirrors the source:
unsupported MIME types are rejected, then empty trimmed content is rejected, then a PDF
with fewer than 10 whitespace-separated tokens is rejected as likely image-based
(`isLikelyImageBased = fileType === 'application/pdf' && wordCount < 10`), and otherwise
`documentStore.set(documentId, text)` and `documentFileNameMap.set(fileName, documentId)`
are both performed. -/
def uploadDocument (s : Store) (documentId fileName fileType extractedText : Str) :
    Store × UploadResult :=
  if fileType ≠ mimePdf ∧ fileType ≠ mimeText ∧ fileType ≠ mimeMarkdown then
    (s, .unsupported)
  else if trimL extractedText = [] then
    (s, .empty)
  else if fileType = mimePdf ∧ jsWordCount extractedText < 10 then
    (s, .lowContent (jsWordCount extractedText))
  else
    ({ byId := mapSet s.byId documentId extractedText,
       byName := mapSet s.byName fileName documentId }, .stored)

/-- JavaScript truthiness of a possibly-missing string: `undefined` and `""` are falsy. -/
def jsFalsy : Option Str → Bool
  | none => true
  | some s => s = []

/-- Embeds the lookup part of `query_document` (route.ts 452–461): try
`documentStore.get(documentId)`; if falsy, map the key through `documentFileNameMap`
and, only when the aliased id is itself truthy (`if (actualDocId)`), look that id up;
a falsy final value means not-found. -/
def resolveDoc (byId byName : SMap) (key : Str) : Option Str :=
  let c1 := mapGet byId key
  let c2 :=
    if jsFalsy c1 then
      match mapGet byName key with
      | some actualDocId =>
        if actualDocId = ([] : Str) then none else mapGet byId actualDocId
      | none => none
    else c1
  if jsFalsy c2 then none else c2

inductive QueryResult where
  | noDocs
  | notFound (available : List Str)
  | lowContent (wordCount : Nat)
  | ok (content question : Str) (isTruncated : Bool) (originalLength : Nat)
deriving DecidableEq

def truncMarker : Str := "\n\n[... document truncated for length ...]".toList

def maxChars : Nat := 25000

/-- Embeds `query_document` (route.ts 447–552): resolve the key (id first, then the
filename alias); if unresolved, report no-documents or not-found with the known names;
if the resolved content has fewer than 10 tokens, report insufficient content; otherwise
truncate at 25,000 characters with an explicit marker and return content, question,
`isTruncated`, and `originalLength`. -/
def queryDocument (byId byName : SMap) (key question : Str) : QueryResult :=
  match resolveDoc byId byName key with
  | none =>
    let availableDocs := byName.map (·.1)
    if availableDocs = [] then .noDocs else .notFound availableDocs
  | some documentContent =>
    let meaningfulContent := trimL (collapseWs documentContent)
    if jsWordCount meaningfulContent < 10 then
      .lowContent (jsWordCount meaningfulContent)
    else if maxChars < documentContent.length then
      .ok (documentContent.take maxChars ++ truncMarker) question true documentContent.length
    else
      .ok documentContent question false documentContent.length

structure UploadArgs where
  documentId : Str
  fileName : Str
  fileType : Str
  extractedText : Str

/-- The store after one `upload_document` call (the caller sees the result message; the
store keeps only the state). -/
def uploadStep (s : Store) (a : UploadArgs) : Store :=
  (uploadDocument s a.documentId a.fileName a.fileType a.extractedText).1

def applyUploads (s : Store) (l : List UploadArgs) : Store := l.foldl uploadStep s

/-- Every alias in `byName` references an id currently present in `byId`. -/
def aliasInvariant (s : Store) : Prop :=
  ∀ nm i, mapGet s.byName nm = some i → (mapGet s.byId i).isSome = true

/- ## Concrete inputs used by witnesses and counterexamples -/

def byIdW : SMap := [("k".toList, "t1".toList), ("d2".toList, "t2".toList)]
def byNameW : SMap := [("k".toList, "d2".toList)]

def docW : Str := "a b c d e f g h i j".toList
def byIdW6 : SMap := [("d1".toList, docW)]

def argsW : UploadArgs := ⟨"d1".toList, "f.txt".toList, mimeText, docW⟩

/- ## Layout text extractor (`get_syllabus_from_pdf` 52–84 and `extractTextFromPDF` 273–302) -/

structure Frag where
  y : Int
  x : Int
  str : Str
deriving DecidableEq

/-- The text-item comparator: when the vertical coordinates (`transform[5]`) differ by
more than 5 layout units, order top-to-bottom (descending `y`); otherwise order
left-to-right by ascending horizontal coordinate (`transform[4]`). -/
def cmpFrag (a b : Frag) : Int :=
  if 5 < (a.y - b.y).natAbs then b.y - a.y else a.x - b.x

/-- `Array.prototype.sort` with `cmpFrag`, modelled as insertion sort: each element is
placed before the first element that does not compare before it. -/
def insertFrag (a : Frag) : List Frag → List Frag
  | [] => [a]
  | b :: l => if cmpFrag a b ≤ 0 then a :: b :: l else b :: insertFrag a l

def sortFrags (l : List Frag) : List Frag := l.foldr insertFrag []

/-- The line-grouping loop over sorted items: starting from the sentinel
`currentY = -1`, a new line begins whenever the previous item's `y` differs from the
current item's `y` by more than 5. -/
def splitLinesGo (currentY : Int) (cur : List Frag) : List Frag → List (List Frag)
  | [] => [cur.reverse]
  | f :: rest =>
    if currentY ≠ -1 ∧ 5 < (currentY - f.y).natAbs then
      cur.reverse :: splitLinesGo f.y [f] rest
    else
      splitLinesGo f.y (f :: cur) rest

def splitLines (l : List Frag) : List (List Frag) := splitLinesGo (-1) [] l

/-- The `lineText` accumulator: each fragment contributes `item.str + ' '`. -/
def lineChars (fs : List Frag) : Str := fs.foldl (fun acc f => acc ++ f.str ++ [' ']) []

/-- One resolved output line, `lineText.trim()`. -/
def renderLine (fs : List Frag) : Str := trimL (lineChars fs)

/-- The page-text loop, accumulating `lineText` and `pageText` exactly as the source
does: at a line break it flushes `lineText.trim() + '\n'`, and at the end it appends the
trimmed remainder with no newline. -/
def pageGo (currentY : Int) (lineText pageText : Str) : List Frag → Str
  | [] => pageText ++ trimL lineText
  | f :: rest =>
    if currentY ≠ -1 ∧ 5 < (currentY - f.y).natAbs then
      pageGo f.y (f.str ++ [' ']) (pageText ++ trimL lineText ++ ['\n']) rest
    else
      pageGo f.y (lineText ++ f.str ++ [' ']) pageText rest

/-- One page of the syllabus extractor (`get_syllabus_from_pdf`). -/
def renderPage (items : List Frag) : Str := pageGo (-1) [] [] (sortFrags items)

/-- `fullText += pageText + '\n\n'` over all pages (syllabus extractor). -/
def renderFull (pages : List (List Frag)) : Str :=
  pages.foldl (fun acc pg => acc ++ renderPage pg ++ ('\n' :: ['\n'])) []

/-- The page banner `'\n--- Page ' + pageNum + ' ---\n'` of `extractTextFromPDF`. -/
def pageHeader (n : Nat) : Str :=
  ("\n--- Page ".toList) ++ (toString n).toList ++ (" ---\n".toList)

/-- One page of the upload extractor (`extractTextFromPDF`), whose `pageText` starts
with the page banner. -/
def renderPageUpload (pageNum : Nat) (items : List Frag) : Str :=
  pageGo (-1) [] (pageHeader pageNum) (sortFrags items)

/-- `fullText += pageText + '\n'` over all pages (upload extractor). -/
def renderFullUploadGo (pageNum : Nat) : List (List Frag) → Str
  | [] => []
  | pg :: rest =>
    renderPageUpload pageNum pg ++ ['\n'] ++ renderFullUploadGo (pageNum + 1) rest

def renderFullUpload (pages : List (List Frag)) : Str := renderFullUploadGo 1 pages

/-- Join a list of strings with a separator between consecutive elements. -/
def joinSep (sep : Str) : List Str → Str
  | [] => []
  | [x] => x
  | x :: y :: t => x ++ sep ++ joinSep sep (y :: t)

/-- Local order between consecutive sorted fragments: a vertical gap beyond the 5-unit
tolerance forces a strictly lower next fragment, and within the tolerance the horizontal
coordinate is non-decreasing. -/
def localOrder (a b : Frag) : Prop :=
  if 5 < (a.y - b.y).natAbs then b.y < a.y else a.x ≤ b.x

/-- Modelled from the spec's words for claim C7 (not from the code): the fragments of a
resolved line concatenated with single-space separators. -/
def specLine (fs : List Frag) : Str := joinSep [' '] (fs.map Frag.str)

/-- Modelled from the spec's words for claim C7 (not from the code): every resolved
line terminated with a newline. -/
def specPage (items : List Frag) : Str :=
  ((splitLines (sortFrags items)).map (fun g => specLine g ++ ['\n'])).foldr (· ++ ·) []

/-- Modelled from the spec's words for claim C7 (not from the code): page outputs joined
with one blank line (double newline) between consecutive pages. -/
def specFull (pages : List (List Frag)) : Str :=
  joinSep ('\n' :: ['\n']) (pages.map specPage)

def fA : Frag := ⟨10, 0, ['a']⟩
def fB : Frag := ⟨4, 0, ['b']⟩
def fC : Frag := ⟨9, 1, ['c']⟩
def fD : Frag := ⟨14, 2, ['d']⟩
def fE : Frag := ⟨0, 0, ['e']⟩
def fF : Frag := ⟨5, 1, ['f']⟩
def fG : Frag := ⟨10, 2, ['g']⟩
def fH : Frag := ⟨15, 3, ['h']⟩
def fI : Frag := ⟨9, 0, ['i']⟩

def pageW : List Frag := [⟨10, 0, "ab".toList⟩, ⟨0, 0, "cd".toList⟩]

/- ## Subject and unit locators (`get_syllabus_from_pdf` 88–181) -/

def isWsHyphen (c : Char) : Bool := jsWs c || c = '-'

def isRomanCh (c : Char) : Bool := c.toLower = 'i' || c.toLower = 'v' || c.toLower = 'x'

/-- Case-insensitive literal match (the `'i'` regex flag), returning the remaining
suffix on success. -/
def matchLit : Str → Str → Option Str
  | [], s => some s
  | _ :: _, [] => none
  | p :: ps, c :: s => if p.toLower = c.toLower then matchLit ps s else none

/-- Greedy star over a character class. -/
def dropClass (f : Char → Bool) : Str → Str
  | [] => []
  | c :: s => if f c then dropClass f s else c :: s

/-- Greedy plus over a character class. -/
def matchClass1 (f : Char → Bool) : Str → Option Str
  | [] => none
  | c :: s => if f c then some (dropClass f s) else none

/-- Optional single character (`x?`), compared case-insensitively. -/
def optCharCI (ch : Char) : Str → Str
  | [] => []
  | c :: s => if c.toLower = ch then s else c :: s

/-- `(?:\d+|[IVX]+)`: digits tried first, else Roman-numeral characters. -/
def numOrRoman (s : Str) : Option Str :=
  match matchClass1 Char.isDigit s with
  | some r => some r
  | none => matchClass1 isRomanCh s

/-- Lookahead alternative `Unit[\s-]*(?:\d+|[IVX]+)\s*:` (case-insensitive). -/
def unitLabelColon (s : Str) : Option Str :=
  (matchLit "Unit".toList s).bind fun s1 =>
  (numOrRoman (dropClass isWsHyphen s1)).bind fun s2 =>
  matchLit ":".toList (dropClass jsWs s2)

/-- Lookahead alternative `UNIT[\s-]*(?:\d+|[IVX]+)` (case-insensitive). -/
def unitLabelPlain (s : Str) : Option Str :=
  (matchLit "Unit".toList s).bind fun s1 => numOrRoman (dropClass isWsHyphen s1)

/-- Lookahead alternative `Course\s+Outcomes` (case-insensitive). -/
def courseOutcomesAt (s : Str) : Option Str :=
  (matchLit "Course".toList s).bind fun s1 =>
  (matchClass1 jsWs s1).bind fun s2 => matchLit "Outcomes".toList s2

/-- Lookahead alternative `Text\s+Books?` (case-insensitive). -/
def textBooksAt (s : Str) : Option Str :=
  (matchLit "Text".toList s).bind fun s1 =>
  (matchClass1 jsWs s1).bind fun s2 =>
  (matchLit "Book".toList s2).map (optCharCI 's')

/-- Lookahead alternative `References?` (case-insensitive). -/
def referencesAt (s : Str) : Option Str :=
  (matchLit "Reference".toList s).map (optCharCI 's')

/-- The capture boundary of unit pattern 1; the `$` alternative is realised by the
capture scan reaching the end of the text. -/
def bd1 (s : Str) : Bool :=
  (unitLabelColon s).isSome || (courseOutcomesAt s).isSome ||
    (textBooksAt s).isSome || (referencesAt s).isSome

/-- The capture boundary of unit patterns 2 and 3. -/
def bd2 (s : Str) : Bool :=
  (unitLabelPlain s).isSome || (courseOutcomesAt s).isSome ||
    (textBooksAt s).isSome || (referencesAt s).isSome

/-- Header of unit pattern 1, `Unit[\s-]*${unit}\s*:`. -/
def hdr1 (unit : Str) (s : Str) : Option Str :=
  (matchLit "Unit".toList s).bind fun s1 =>
  (matchLit unit (dropClass isWsHyphen s1)).bind fun s2 =>
  matchLit ":".toList (dropClass jsWs s2)

/-- Header of unit pattern 2, `UNIT[\s-]*${unit}`. -/
def hdr2 (unit : Str) (s : Str) : Option Str :=
  (matchLit "UNIT".toList s).bind fun s1 => matchLit unit (dropClass isWsHyphen s1)

/-- `convertToRoman` (route.ts 256–262). -/
def convertToRoman (num : Str) : Str :=
  if num = "1".toList then "I".toList
  else if num = "2".toList then "II".toList
  else if num = "3".toList then "III".toList
  else if num = "4".toList then "IV".toList
  else if num = "5".toList then "V".toList
  else if num = "6".toList then "VI".toList
  else if num = "7".toList then "VII".toList
  else if num = "8".toList then "VIII".toList
  else num

/-- Header of unit pattern 3, `Unit[\s-]*${convertToRoman(unit)}\s*:?`. -/
def hdr3 (unit : Str) (s : Str) : Option Str :=
  (matchLit "Unit".toList s).bind fun s1 =>
  (matchLit (convertToRoman unit) (dropClass isWsHyphen s1)).map fun s2 =>
  optCharCI ':' (dropClass jsWs s2)

/-- The lazy capture `([\s\S]+?)(?=boundary|$)`: after at least one captured character,
stop at the first position where some boundary alternative matches (or at the end of
the text). -/
def lazyCaptureGo (bd : Str → Bool) : Str → Str
  | [] => []
  | c :: s => if bd (c :: s) then [] else c :: lazyCaptureGo bd s

/-- A full unit pattern attempted at one position: the header, then a non-empty lazy
capture. -/
def matchPatternAt (hdr : Str → Option Str) (bd : Str → Bool) (s : Str) :
    Option (Str × Str) :=
  match hdr s with
  | none => none
  | some [] => none
  | some (c :: r) => some (c :: r, c :: lazyCaptureGo bd r)

/-- `String.prototype.match`: the leftmost position at which the pattern succeeds,
returning the text after the header together with the capture. -/
def findPattern (hdr : Str → Option Str) (bd : Str → Bool) : Str → Option (Str × Str)
  | [] => none
  | c :: s =>
    match matchPatternAt hdr bd (c :: s) with
    | some q => some q
    | none => findPattern hdr bd s

/-- The unit-pattern cascade (route.ts 152–181): patterns tried in order, first match
wins; the result records the winning pattern's index, the text after its header, and
its capture. -/
def unitSearchFull (text unit : Str) : Option (Nat × Str × Str) :=
  match findPattern (hdr1 unit) bd1 text with
  | some (r, cap) => some (1, r, cap)
  | none =>
    match findPattern (hdr2 unit) bd2 text with
    | some (r, cap) => some (2, r, cap)
    | none =>
      match findPattern (hdr3 unit) bd2 text with
      | some (r, cap) => some (3, r, cap)
      | none => none

/-- The boundary set used by each unit pattern. -/
def boundaryAt : Nat → Str → Bool
  | 1, s => bd1 s
  | _, s => bd2 s

/-- `match[1]` of the winning unit pattern — the captured span. -/
def unitContent (text unit : Str) : Option Str :=
  (unitSearchFull text unit).map (fun q => q.2.2)

/-- Leftmost index at which a position test succeeds (the end-of-text position is also
tested). -/
def findIdxGo (m : Str → Bool) : Str → Nat → Option Nat
  | [], i => if m [] then some i else none
  | c :: s, i => if m (c :: s) then some i else findIdxGo m s (i + 1)

/-- Subject pattern 1, `Course\s+Title\s*:?\s*${subject}` ('i'), tested at one
position. -/
def courseTitleAt (subject : Str) (s : Str) : Option Str :=
  (matchLit "Course".toList s).bind fun s1 =>
  (matchClass1 jsWs s1).bind fun s2 =>
  (matchLit "Title".toList s2).bind fun s3 =>
  matchLit subject (dropClass jsWs (optCharCI ':' (dropClass jsWs s3)))

def findCourseTitle (text subject : Str) : Option Nat :=
  findIdxGo (fun s => (courseTitleAt subject s).isSome) text 0

/-- Subject pattern 2, the raw subject string ('i'). -/
def findRawSubject (text subject : Str) : Option Nat :=
  findIdxGo (fun s => (matchLit subject s).isSome) text 0

/-- `String.prototype.split(sep)` for a one-character separator, keeping empty
segments. -/
def splitOnCharGo (ch : Char) (cur : Str) : Str → List Str
  | [] => [cur.reverse]
  | c :: s =>
    if c = ch then cur.reverse :: splitOnCharGo ch [] s else splitOnCharGo ch (c :: cur) s

def splitOnChar (ch : Char) (s : Str) : List Str := splitOnCharGo ch [] s

/-- The tail of subject pattern 3: each later word of `subject.split(' ')` preceded by
`\s+`. -/
def matchFlexTail : List Str → Str → Option Str
  | [], s => some s
  | w :: ws, s =>
    (matchClass1 jsWs s).bind fun s1 => (matchLit w s1).bind (matchFlexTail ws)

/-- Subject pattern 3, `subject.split(' ').join('\s+')` ('i'), tested at one
position. -/
def flexibleAt (subject : Str) (s : Str) : Option Str :=
  match splitOnChar ' ' subject with
  | [] => some s
  | w :: ws => (matchLit w s).bind (matchFlexTail ws)

def findFlexible (text subject : Str) : Option Nat :=
  findIdxGo (fun s => (flexibleAt subject s).isSome) text 0

/-- JavaScript `\w` word characters. -/
def isWordCh (c : Char) : Bool := c.isAlphanum || c = '_'

/-- `normalizeSubject` (route.ts 89–94): lowercase, strip characters outside `\w` and
`\s`, collapse whitespace, trim. -/
def normalizeSubject (s : Str) : Str :=
  trimL (collapseWs ((s.map Char.toLower).filter (fun c => isWordCh c || jsWs c)))

/-- `haystack.indexOf(needle)` (case-sensitive), as an option. -/
def indexOfSub (needle hay : Str) : Option Nat :=
  findIdxGo (fun s => needle.isPrefixOf s) hay 0

/-- `haystack.includes(needle)`. -/
def containsSub (needle hay : Str) : Bool := (indexOfSub needle hay).isSome

/-- The fallback line scan (route.ts 118–127): the first line whose normalization
contains the normalized subject, located back in the full text by `indexOf` on the
line's literal text. -/
def fallbackScan (text subject : Str) : Option Nat :=
  match (splitOnChar '\n' text).find?
      (fun ln => containsSub (normalizeSubject subject) (normalizeSubject ln)) with
  | some ln => indexOfSub ln text
  | none => none

/-- The subject-pattern cascade (route.ts 98–127): Course-Title-labelled form, raw
substring, flexible-whitespace form, then the normalized line scan; the first success
determines `subjectStartIndex`. -/
def subjectAnchor (text subject : Str) : Option Nat :=
  match findCourseTitle text subject with
  | some i => some i
  | none =>
    match findRawSubject text subject with
    | some i => some i
    | none =>
      match findFlexible text subject with
      | some i => some i
      | none => fallbackScan text subject

/- ## Tool orchestrator (`POST`, route.ts 1035–1300) -/

/-- The keys of `availableFunctions` (route.ts 1027–1033). -/
def availableFunctionNames : List String :=
  ["get_attendance", "get_timetable", "get_syllabus_from_pdf",
   "upload_document", "query_document"]

/-- `messages.length > 2 && (userMessage.toLowerCase().includes('table') || … )`
(route.ts 1090–1094). -/
def isReformatRequest (messagesLength : Nat) (userMessage : String) : Bool :=
  decide (2 < messagesLength) &&
    (containsSub ("table".toList) (userMessage.toList.map Char.toLower) ||
     containsSub ("format".toList) (userMessage.toList.map Char.toLower) ||
     containsSub ("different".toList) (userMessage.toList.map Char.toLower) ||
     containsSub ("show".toList) (userMessage.toList.map Char.toLower))

/-- What becomes of one tool invocation in the dispatch loop. -/
inductive CallFate where
  /-- `if (!func) continue;` — the invocation is dropped with no message. -/
  | skipped
  /-- A tool-result message is appended to the history and the loop continues. -/
  | resulted
  /-- An attendance/timetable result returned verbatim to the caller, with
  `tool_used` set. -/
  | returned (name : String) (content : String)
  /-- A `query_document` invocation: both its branches end the request with a
  terminal response. -/
  | returnedDoc (name : String)
  /-- An invocation after a terminal return; the loop never reaches it. -/
  | unreached
deriving DecidableEq

def CallFate.isTerminal : CallFate → Bool
  | .returned _ _ => true
  | .returnedDoc _ => true
  | _ => false

/-- The dispatch loop over the model's tool invocations (route.ts 1078–1218), one
`CallFate` per invocation in order: unknown names are skipped by `continue`;
`get_attendance` / `get_timetable` return their result verbatim unless the turn is a
reformatting request; `query_document` always ends the request; every other known tool
appends its result message and the loop continues.  `env` gives each tool's result
text; argument parsing and the tools' internally-caught errors do not affect the control
flow modelled here. -/
def dispatchTrace (env : String → String) (reformat : Bool) : List String → List CallFate
  | [] => []
  | n :: rest =>
    if availableFunctionNames.contains n = false then
      .skipped :: dispatchTrace env reformat rest
    else if (n = "get_attendance" ∨ n = "get_timetable") ∧ reformat = false then
      .returned n (env n) :: rest.map (fun _ => .unreached)
    else if n = "query_document" then
      .returnedDoc n :: rest.map (fun _ => .unreached)
    else
      .resulted :: dispatchTrace env reformat rest

/-- The fate of a single invocation when the loop reaches it. -/
def fateOf (env : String → String) (reformat : Bool) (n : String) : CallFate :=
  if availableFunctionNames.contains n = false then .skipped
  else if (n = "get_attendance" ∨ n = "get_timetable") ∧ reformat = false then
    .returned n (env n)
  else if n = "query_document" then .returnedDoc n
  else .resulted

/- ## Helper lemmas -/

theorem mapGet_mem {m : SMap} {k v : Str} (h : mapGet m k = some v) : (k, v) ∈ m := by
  induction m with
  | nil => simp [mapGet] at h
  | cons p rest ih =>
    obtain ⟨k', v'⟩ := p
    by_cases hk : k = k'
    · simp [mapGet, hk] at h
      simp [hk, h]
    · simp [mapGet, hk] at h
      exact List.mem_cons_of_mem _ (ih h)

/- ## Claims C1, C2, C6, C9 -/

/-- Counterexample for C2 as stated: uploading with `documentId = ""` is accepted and
stored, making the filename alias map to the empty-string id.  Querying by that
filename then misses the id table, hits the alias table, and the aliased id `""` is
present in the id table — both resolutions in the claim's sense hit — yet the
`if (actualDocId)` truthiness guard skips the second lookup and `query_document`
reports not-found. -/
theorem query_resolution_guard_cex :
    (uploadDocument emptyStore [] ("f.txt".toList) mimeText docW).2 = .stored ∧
    (let s := (uploadDocument emptyStore [] ("f.txt".toList) mimeText docW).1
     mapGet s.byId ("f.txt".toList) = none ∧
     mapGet s.byName ("f.txt".toList) = some [] ∧
     mapGet s.byId [] = some docW ∧
     resolveDoc s.byId s.byName ("f.txt".toList) = none ∧
     queryDocument s.byId s.byName ("f.txt".toList) ("q".toList)
       = .notFound ["f.txt".toList]) := by decide

/-- Claim C2 (amended): for every store whose stored texts are non-empty (as every
store reachable through `upload_document` is), `query_document` resolves a key against
the id table first and consults the filename-alias table only on an id miss; the
aliased id is looked up only when it is truthy (non-empty), so not-found is reported
exactly when the id table misses and the alias resolution misses, maps to the
empty-string id, or leads to an id absent from the id table.  In particular a key that
is simultaneously a stored id and another document's filename still resolves to the id
match, never the alias match. -/
theorem query_resolution_order (byId byName : SMap) (key : Str)
    (hne : ∀ p ∈ byId, p.2 ≠ ([] : Str)) :
    (∀ t, mapGet byId key = some t → resolveDoc byId byName key = some t) ∧
    (resolveDoc byId byName key = none ↔
      (mapGet byId key = none ∧
        ∀ i, mapGet byName key = some i → (i = [] ∨ mapGet byId i = none))) := by
  unfold resolveDoc
  cases h1 : mapGet byId key with
  | some t =>
    have ht : t ≠ [] := hne _ (mapGet_mem h1)
    constructor
    · intro t' ht'
      have : t' = t := (Option.some.inj ht').symm
      subst this
      simp [jsFalsy, ht]
    · simp [jsFalsy, ht]
  | none =>
    constructor
    · intro t ht; simp at ht
    · cases h2 : mapGet byName key with
      | none => simp [jsFalsy]
      | some i =>
        by_cases hi : i = ([] : Str)
        · subst hi
          simp [jsFalsy]
        · cases h3 : mapGet byId i with
          | none => simp [jsFalsy, hi, h3]
          | some t =>
            have ht : t ≠ [] := hne _ (mapGet_mem h3)
            simp [jsFalsy, hi, ht, h3]

/-- Witness for C2: key `"k"` is a stored id (text `"t1"`) and also the filename alias
of document `"d2"`; resolution returns the id match `"t1"`. -/
theorem query_resolution_order_witness :
    (∀ p ∈ byIdW, p.2 ≠ ([] : Str)) ∧
    resolveDoc byIdW byNameW ("k".toList) = some ("t1".toList) :=
  ⟨by decide, (query_resolution_order byIdW byNameW ("k".toList) (by decide)).1 _ (by decide)⟩

/-- Claim C6 (confirmed): a resolved document with at least 10 tokens is returned whole
with `isTruncated = false` when its length is at most 25,000 characters (including
exactly 25,000), and otherwise as its first 25,000 characters plus the explicit
truncation marker with `isTruncated = true`; `originalLength` is always the full
pre-truncation length. -/
theorem query_truncation (byId byName : SMap) (key question doc : Str)
    (hres : resolveDoc byId byName key = some doc)
    (hwc : 10 ≤ jsWordCount (trimL (collapseWs doc))) :
    (maxChars < doc.length →
      queryDocument byId byName key question =
        .ok (doc.take maxChars ++ truncMarker) question true doc.length) ∧
    (doc.length ≤ maxChars →
      queryDocument byId byName key question = .ok doc question false doc.length) := by
  unfold queryDocument
  rw [hres]
  have hnlt : ¬ jsWordCount (trimL (collapseWs doc)) < 10 := by omega
  constructor
  · intro hlong
    simp [hnlt, hlong]
  · intro hshort
    have : ¬ maxChars < doc.length := by omega
    simp [hnlt, this]

/-- Witness for C6: a 10-token, 19-character document is returned whole, untruncated,
with its true length. -/
theorem query_truncation_witness :
    resolveDoc byIdW6 [] ("d1".toList) = some docW ∧
    10 ≤ jsWordCount (trimL (collapseWs docW)) ∧
    queryDocument byIdW6 [] ("d1".toList) ("q".toList) =
      .ok docW ("q".toList) false docW.length :=
  ⟨by decide, by decide,
    (query_truncation byIdW6 [] ("d1".toList) ("q".toList) docW (by decide) (by decide)).2
      (by decide)⟩

/-- Counterexample for C1: a plain-text upload whose content has 2 tokens (fewer than
10) is accepted and stored, not rejected — the low-content rejection is applied only to
`application/pdf` uploads. -/
theorem upload_low_content_claim_cex :
    jsWordCount ("hi there".toList) = 2 ∧ (2 : Nat) < 10 ∧
    (uploadDocument emptyStore ("d1".toList) ("f.txt".toList) mimeText
      ("hi there".toList)).2 = .stored ∧
    (uploadDocument emptyStore ("d1".toList) ("f.txt".toList) mimeText
      ("hi there".toList)).1 ≠ emptyStore := by decide

/-- Claim C1 (amended): only uploads with file type `application/pdf` whose extracted
content has fewer than 10 whitespace-separated tokens are rejected with the low-content
message and left unstored; a plain-text or markdown upload with non-empty trimmed
content is stored regardless of its token count. -/
theorem upload_low_content_pdf_only (s : Store) (documentId fileName extractedText : Str)
    (hnz : trimL extractedText ≠ []) :
    (jsWordCount extractedText < 10 →
      uploadDocument s documentId fileName mimePdf extractedText
        = (s, .lowContent (jsWordCount extractedText))) ∧
    (uploadDocument s documentId fileName mimeText extractedText).2 = .stored ∧
    (uploadDocument s documentId fileName mimeMarkdown extractedText).2 = .stored := by
  refine ⟨fun hlow => ?_, ?_, ?_⟩
  · unfold uploadDocument
    simp [hnz, hlow]
  · unfold uploadDocument
    have h1 : ¬ (mimeText ≠ mimePdf ∧ mimeText ≠ mimeText ∧ mimeText ≠ mimeMarkdown) := by
      simp
    have h2 : ¬ (mimeText = mimePdf ∧ jsWordCount extractedText < 10) := by
      intro h
      exact absurd h.1 (by decide)
    simp [h1, hnz, h2]
  · unfold uploadDocument
    have h1 : ¬ (mimeMarkdown ≠ mimePdf ∧ mimeMarkdown ≠ mimeText ∧
        mimeMarkdown ≠ mimeMarkdown) := by simp
    have h2 : ¬ (mimeMarkdown = mimePdf ∧ jsWordCount extractedText < 10) := by
      intro h
      exact absurd h.1 (by decide)
    simp [h1, hnz, h2]

/-- Witness for the amended C1: `"hi"` (one token) is rejected as low-content when
uploaded as a PDF but stored when uploaded as plain text. -/
theorem upload_low_content_pdf_only_witness :
    trimL ("hi".toList) ≠ [] ∧
    uploadDocument emptyStore ("d1".toList) ("f".toList) mimePdf ("hi".toList)
      = (emptyStore, .lowContent (jsWordCount ("hi".toList))) ∧
    (uploadDocument emptyStore ("d1".toList) ("f".toList) mimeText ("hi".toList)).2
      = .stored :=
  ⟨by decide,
    (upload_low_content_pdf_only emptyStore _ _ _ (by decide)).1 (by decide),
    (upload_low_content_pdf_only emptyStore _ _ _ (by decide)).2.1⟩

/-- Claim C9 (confirmed): after any sequence of uploads starting from the empty store,
every filename-alias entry references an id present in the id table; a single upload
preserves the invariant, and on an accepted upload the id entry and the alias entry are
added together in one step, while a rejected upload leaves the store unchanged. -/
theorem upload_alias_invariant :
    (∀ ups : List UploadArgs, aliasInvariant (applyUploads emptyStore ups)) ∧
    (∀ (s : Store) (a : UploadArgs), aliasInvariant s → aliasInvariant (uploadStep s a)) ∧
    (∀ (s : Store) (documentId fileName fileType extractedText : Str),
      ((uploadDocument s documentId fileName fileType extractedText).2 = .stored →
        mapGet (uploadDocument s documentId fileName fileType extractedText).1.byId
          documentId = some extractedText ∧
        mapGet (uploadDocument s documentId fileName fileType extractedText).1.byName
          fileName = some documentId) ∧
      ((uploadDocument s documentId fileName fileType extractedText).2 ≠ .stored →
        (uploadDocument s documentId fileName fileType extractedText).1 = s)) := by
  have hstep : ∀ (s : Store) (a : UploadArgs), aliasInvariant s →
      aliasInvariant (uploadStep s a) := by
    intro s a hinv
    unfold uploadStep uploadDocument
    split
    · exact hinv
    · split
      · exact hinv
      · split
        · exact hinv
        · intro nm i h
          simp only [mapSet, mapGet] at h ⊢
          by_cases hnm : nm = a.fileName
          · simp [hnm] at h
            simp [hnm, ← h]
          · simp [hnm] at h
            have := hinv nm i h
            by_cases hid : i = a.documentId
            · simp [hid]
            · simpa [hid] using this
  refine ⟨?_, hstep, ?_⟩
  · intro ups
    have hbase : aliasInvariant emptyStore := by
      intro nm i h
      simp [emptyStore, mapGet] at h
    have hgen : ∀ (l : List UploadArgs) (s : Store), aliasInvariant s →
        aliasInvariant (applyUploads s l) := by
      intro l
      induction l with
      | nil => intro s hs; exact hs
      | cons a rest ih =>
        intro s hs
        exact ih (uploadStep s a) (hstep s a hs)
    exact hgen ups emptyStore hbase
  · intro s documentId fileName fileType extractedText
    by_cases c1 : fileType ≠ mimePdf ∧ fileType ≠ mimeText ∧ fileType ≠ mimeMarkdown
    · refine ⟨fun hstored => absurd hstored ?_, fun _ => ?_⟩
      · unfold uploadDocument
        rw [if_pos c1]
        simp
      · unfold uploadDocument
        rw [if_pos c1]
    · by_cases c2 : trimL extractedText = []
      · refine ⟨fun hstored => absurd hstored ?_, fun _ => ?_⟩
        · unfold uploadDocument
          rw [if_neg c1, if_pos c2]
          simp
        · unfold uploadDocument
          rw [if_neg c1, if_pos c2]
      · by_cases c3 : fileType = mimePdf ∧ jsWordCount extractedText < 10
        · refine ⟨fun hstored => absurd hstored ?_, fun _ => ?_⟩
          · unfold uploadDocument
            rw [if_neg c1, if_neg c2, if_pos c3]
            simp
          · unfold uploadDocument
            rw [if_neg c1, if_neg c2, if_pos c3]
        · refine ⟨fun _ => ?_, fun hnot => absurd ?_ hnot⟩
          · unfold uploadDocument
            rw [if_neg c1, if_neg c2, if_neg c3]
            simp [mapSet, mapGet]
          · unfold uploadDocument
            rw [if_neg c1, if_neg c2, if_neg c3]

/-- Witness for C9: a concrete accepted upload produces both the id entry and the alias
entry, and one rejected-then-accepted step sequence keeps the invariant. -/
theorem upload_alias_invariant_witness :
    (mapGet (uploadDocument emptyStore argsW.documentId argsW.fileName argsW.fileType
        argsW.extractedText).1.byId argsW.documentId = some argsW.extractedText ∧
      mapGet (uploadDocument emptyStore argsW.documentId argsW.fileName argsW.fileType
        argsW.extractedText).1.byName argsW.fileName = some argsW.documentId) ∧
    aliasInvariant (uploadStep emptyStore argsW) :=
  ⟨(upload_alias_invariant.2.2 emptyStore _ _ _ _).1 (by decide),
    upload_alias_invariant.2.1 emptyStore argsW
      (fun nm i h => by simp [emptyStore, mapGet] at h)⟩

/- ## Extractor lemmas -/

theorem cmpFrag_le_iff (a b : Frag) : cmpFrag a b ≤ 0 ↔ localOrder a b := by
  unfold cmpFrag localOrder
  by_cases h : 5 < (a.y - b.y).natAbs
  · simp only [if_pos h]
    omega
  · simp only [if_neg h]
    omega

theorem cmpFrag_flip {a b : Frag} (h : ¬ cmpFrag a b ≤ 0) : cmpFrag b a ≤ 0 := by
  unfold cmpFrag at *
  by_cases h5 : 5 < (a.y - b.y).natAbs
  · rw [if_pos h5] at h
    rw [if_pos (by omega : 5 < (b.y - a.y).natAbs)]
    omega
  · rw [if_neg h5] at h
    rw [if_neg (by omega : ¬ 5 < (b.y - a.y).natAbs)]
    omega

theorem insertFrag_headSplit (a : Frag) (l : List Frag) :
    (insertFrag a l).head? = some a ∨ (insertFrag a l).head? = l.head? := by
  cases l with
  | nil => left; rfl
  | cons b t =>
    unfold insertFrag
    by_cases h : cmpFrag a b ≤ 0
    · left; rw [if_pos h]; rfl
    · right; rw [if_neg h]; rfl

theorem chain'_insertFrag (a : Frag) (l : List Frag)
    (h : List.Chain' (fun x y => cmpFrag x y ≤ 0) l) :
    List.Chain' (fun x y => cmpFrag x y ≤ 0) (insertFrag a l) := by
  induction l with
  | nil => simp [insertFrag]
  | cons b t ih =>
    unfold insertFrag
    by_cases hab : cmpFrag a b ≤ 0
    · rw [if_pos hab]
      rw [List.chain'_cons]
      exact ⟨hab, h⟩
    · rw [if_neg hab]
      have hba : cmpFrag b a ≤ 0 := cmpFrag_flip hab
      have hins := ih h.tail
      rw [List.chain'_cons']
      refine ⟨?_, hins⟩
      intro y hy
      rcases insertFrag_headSplit a t with hh | hh
      · rw [hh] at hy
        have hya : a = y := by simpa using hy
        subst hya
        exact hba
      · rw [hh] at hy
        exact (List.chain'_cons'.mp h).1 y hy

theorem chain'_sortFrags (l : List Frag) :
    List.Chain' (fun x y => cmpFrag x y ≤ 0) (sortFrags l) := by
  induction l with
  | nil => simp [sortFrags]
  | cons a t ih => exact chain'_insertFrag a _ ih

theorem splitLinesGo_ne_nil (rest : List Frag) :
    ∀ (curY : Int) (cur : List Frag), splitLinesGo curY cur rest ≠ [] := by
  induction rest with
  | nil => intro curY cur; simp [splitLinesGo]
  | cons f t ih =>
    intro curY cur
    unfold splitLinesGo
    by_cases h : curY ≠ -1 ∧ 5 < (curY - f.y).natAbs
    · rw [if_pos h]; simp
    · rw [if_neg h]; exact ih _ _

theorem chain'_splitLinesGo (R : Frag → Frag → Prop) (rest : List Frag) :
    ∀ (curY : Int) (cur : List Frag),
      List.Chain' R (cur.reverse ++ rest) →
      ∀ g ∈ splitLinesGo curY cur rest, List.Chain' R g := by
  induction rest with
  | nil =>
    intro curY cur h g hg
    simp [splitLinesGo] at hg
    subst hg
    simpa using h
  | cons f t ih =>
    intro curY cur h g hg
    unfold splitLinesGo at hg
    by_cases hc : curY ≠ -1 ∧ 5 < (curY - f.y).natAbs
    · rw [if_pos hc] at hg
      rcases List.mem_cons.mp hg with hg | hg
      · subst hg
        exact (List.chain'_append.mp h).1
      · refine ih f.y [f] ?_ g hg
        simpa using (List.chain'_append.mp h).2.1
    · rw [if_neg hc] at hg
      refine ih f.y (f :: cur) ?_ g hg
      simpa [List.reverse_cons, List.append_assoc] using h

theorem chain'_x_of_tolerance (g : List Frag)
    (hch : List.Chain' localOrder g)
    (htol : ∀ a ∈ g, ∀ b ∈ g, (a.y - b.y).natAbs ≤ 5) :
    List.Chain' (fun a b => a.x ≤ b.x) g := by
  induction g with
  | nil => simp
  | cons a t ih =>
    rw [List.chain'_cons'] at hch ⊢
    refine ⟨?_, ih hch.2
      (fun u hu v hv => htol u (List.mem_cons_of_mem _ hu) v (List.mem_cons_of_mem _ hv))⟩
    intro y hy
    have h1 := hch.1 y hy
    have hmem : y ∈ t := by
      cases t with
      | nil => simp at hy
      | cons b t' =>
        have hby : b = y := by simpa using hy
        subst hby
        simp
    have h5 := htol a (by simp) y (List.mem_cons_of_mem _ hmem)
    unfold localOrder at h1
    rwa [if_neg (by omega)] at h1

theorem lineChars_append (l : List Frag) (f : Frag) :
    lineChars (l ++ [f]) = lineChars l ++ f.str ++ [' '] := by
  simp [lineChars, List.foldl_append]

theorem joinSep_cons (sep x : Str) (l : List Str) (h : l ≠ []) :
    joinSep sep (x :: l) = x ++ sep ++ joinSep sep l := by
  cases l with
  | nil => exact absurd rfl h
  | cons y t => rfl

theorem pageGo_eq (rest : List Frag) :
    ∀ (curY : Int) (cur : List Frag) (pageText : Str),
      pageGo curY (lineChars cur.reverse) pageText rest
        = pageText ++ joinSep ['\n'] ((splitLinesGo curY cur rest).map renderLine) := by
  induction rest with
  | nil =>
    intro curY cur pageText
    simp [pageGo, splitLinesGo, joinSep, renderLine]
  | cons f t ih =>
    intro curY cur pageText
    unfold pageGo splitLinesGo
    by_cases hc : curY ≠ -1 ∧ 5 < (curY - f.y).natAbs
    · rw [if_pos hc, if_pos hc]
      have h1 : f.str ++ [' '] = lineChars ([f].reverse) := by
        simp [lineChars]
      rw [h1, ih]
      have hne : (splitLinesGo f.y [f] t).map renderLine ≠ [] := fun hmap =>
        splitLinesGo_ne_nil t f.y [f] (List.map_eq_nil_iff.mp hmap)
      rw [List.map_cons, joinSep_cons _ _ _ hne]
      simp [renderLine, List.append_assoc]
    · rw [if_neg hc, if_neg hc]
      have h1 : lineChars cur.reverse ++ f.str ++ [' '] = lineChars ((f :: cur).reverse) := by
        rw [List.reverse_cons, lineChars_append]
      rw [h1, ih]

theorem renderFull_eq_aux (pages : List (List Frag)) :
    ∀ acc : Str,
      pages.foldl (fun acc pg => acc ++ renderPage pg ++ ('\n' :: ['\n'])) acc
        = acc ++ (pages.map (fun pg => renderPage pg ++ ('\n' :: ['\n']))).foldr (· ++ ·) [] := by
  induction pages with
  | nil => intro acc; simp
  | cons p t ih =>
    intro acc
    simp only [List.foldl_cons, List.map_cons, List.foldr_cons]
    rw [ih]
    simp [List.append_assoc]

/- ## Claims C3 and C7 -/

/-- Claim C3 (amended): consecutive fragments of the extractor's sorted output satisfy
the local reading order — a vertical gap beyond the 5-unit tolerance steps strictly
downwards, and within the tolerance the horizontal coordinate is non-decreasing; hence
within any output line whose fragments' vertical coordinates are pairwise within the
tolerance, fragments appear in non-decreasing horizontal order.  The original claim's
global guarantee that whole lines appear in non-increasing vertical order fails (see the
counterexample): tolerance chains let a later line contain fragments above an earlier
line. -/
theorem extractor_local_order :
    (∀ items : List Frag, List.Chain' localOrder (sortFrags items)) ∧
    (∀ (items : List Frag) (g : List Frag), g ∈ splitLines (sortFrags items) →
      (∀ a ∈ g, ∀ b ∈ g, (a.y - b.y).natAbs ≤ 5) →
      List.Chain' (fun a b => a.x ≤ b.x) g) := by
  have hloc : ∀ items : List Frag, List.Chain' localOrder (sortFrags items) := by
    intro items
    exact (chain'_sortFrags items).imp (fun a b hab => (cmpFrag_le_iff a b).mp hab)
  refine ⟨hloc, ?_⟩
  intro items g hg htol
  have hch : List.Chain' localOrder g := by
    refine chain'_splitLinesGo localOrder (sortFrags items) (-1) [] ?_ g hg
    simpa using hloc items
  exact chain'_x_of_tolerance g hch htol

/-- Witness for the amended C3: a concrete two-fragment line (equal `y`, swapped input
order) lies in the extractor output and is sorted by ascending `x`. -/
theorem extractor_local_order_witness :
    ([⟨0, 0, ['a']⟩, ⟨0, 1, ['b']⟩] : List Frag)
        ∈ splitLines (sortFrags [⟨0, 1, ['b']⟩, ⟨0, 0, ['a']⟩]) ∧
    List.Chain' (fun a b => a.x ≤ b.x) ([⟨0, 0, ['a']⟩, ⟨0, 1, ['b']⟩] : List Frag) :=
  ⟨by decide,
    extractor_local_order.2 [⟨0, 1, ['b']⟩, ⟨0, 0, ['a']⟩] _ (by decide) (by decide)⟩

/-- Counterexample for C3 as stated: in the first fragment set the second output line
contains a fragment at `y = 14`, strictly above every fragment of the first line
(`y = 10`), so line order is not non-increasing under the all-fragments (or maximum, or
last) reading; in the second set the later line starts at `y = 9` above the earlier
line's first fragment (`y = 0`), refuting the first-fragment (and minimum, and mean)
reading as well. -/
theorem extractor_line_order_cex :
    splitLines (sortFrags [fA, fB, fC, fD]) = [[fA], [fB, fC, fD]] ∧
    fA.y = 10 ∧ fD.y = 14 ∧
    splitLines (sortFrags [fE, fF, fG, fH, fI]) = [[fE, fF, fG, fH], [fI]] ∧
    fE.y = 0 ∧ fI.y = 9 := by decide

/-- Claim C7 (amended): each page of the syllabus extractor is the newline-join of its
resolved lines (so every line except the final one of a page is newline-terminated, the
final one is not), where a resolved line is the whitespace-trimmed concatenation of its
fragments each followed by one space; every page output is then followed by a
`"\n\n"` terminator, giving exactly one blank line between consecutive pages.  The
upload extractor (`extractTextFromPDF`) builds the same line structure after its page
banner and joins pages with a single newline instead. -/
theorem extractor_rendering :
    (∀ items : List Frag,
      renderPage items = joinSep ['\n'] ((splitLines (sortFrags items)).map renderLine)) ∧
    (∀ pages : List (List Frag),
      renderFull pages
        = (pages.map (fun pg => renderPage pg ++ ('\n' :: ['\n']))).foldr (· ++ ·) []) ∧
    (∀ (n : Nat) (items : List Frag),
      renderPageUpload n items
        = pageHeader n ++ joinSep ['\n'] ((splitLines (sortFrags items)).map renderLine)) := by
  have hpage : ∀ (items : List Frag) (pt : Str),
      pageGo (-1) [] pt (sortFrags items)
        = pt ++ joinSep ['\n'] ((splitLines (sortFrags items)).map renderLine) := by
    intro items pt
    have h := pageGo_eq (sortFrags items) (-1) [] pt
    simpa [lineChars, splitLines] using h
  refine ⟨?_, ?_, ?_⟩
  · intro items
    simpa [renderPage] using hpage items []
  · intro pages
    simpa [renderFull] using renderFull_eq_aux pages []
  · intro n items
    exact hpage items (pageHeader n)

/-- Counterexample for C7 as stated: on a concrete one-page fragment set the extractor
produces `"ab\ncd"` for the page (final line not newline-terminated) and
`"ab\ncd\n\n"` overall, while the claim's reading (every resolved line
newline-terminated, pages joined by blank lines between them) yields `"ab\ncd\n"`. -/
theorem extractor_rendering_cex :
    renderPage pageW = "ab\ncd".toList ∧
    specPage pageW = "ab\ncd\n".toList ∧
    renderFull [pageW] = "ab\ncd\n\n".toList ∧
    specFull [pageW] = "ab\ncd\n".toList ∧
    renderFull [pageW] ≠ specFull [pageW] := by decide

/- ## Locator lemmas -/

theorem lazyCaptureGo_append (bd : Str → Bool) (l : Str) :
    ∃ rest, l = lazyCaptureGo bd l ++ rest := by
  induction l with
  | nil => exact ⟨[], rfl⟩
  | cons c s ih =>
    unfold lazyCaptureGo
    by_cases h : bd (c :: s)
    · rw [if_pos h]
      exact ⟨c :: s, rfl⟩
    · rw [if_neg h]
      obtain ⟨rest, hrest⟩ := ih
      exact ⟨rest, by rw [List.cons_append, ← hrest]⟩

theorem lazyCaptureGo_no_boundary (bd : Str → Bool) (l : Str) :
    ∀ j, j < (lazyCaptureGo bd l).length → bd (List.drop j l) = false := by
  induction l with
  | nil => intro j hj; simp [lazyCaptureGo] at hj
  | cons c s ih =>
    intro j hj
    unfold lazyCaptureGo at hj
    by_cases h : bd (c :: s)
    · rw [if_pos h] at hj
      simp at hj
    · rw [if_neg h] at hj
      cases j with
      | zero => simpa using h
      | succ k =>
        simp at hj
        have hres := ih k (by omega)
        simpa using hres

theorem matchPatternAt_shape (hdr : Str → Option Str) (bd : Str → Bool) (s r cap : Str)
    (h : matchPatternAt hdr bd s = some (r, cap)) :
    ∃ c t, r = c :: t ∧ cap = c :: lazyCaptureGo bd t := by
  unfold matchPatternAt at h
  cases hh : hdr s with
  | none => rw [hh] at h; simp at h
  | some u =>
    rw [hh] at h
    cases u with
    | nil => simp at h
    | cons c t =>
      simp at h
      exact ⟨c, t, h.1.symm, h.2.symm⟩

theorem findPattern_shape (hdr : Str → Option Str) (bd : Str → Bool) :
    ∀ (s r cap : Str), findPattern hdr bd s = some (r, cap) →
      ∃ c t, r = c :: t ∧ cap = c :: lazyCaptureGo bd t := by
  intro s
  induction s with
  | nil => intro r cap h; simp [findPattern] at h
  | cons c0 s0 ih =>
    intro r cap h
    unfold findPattern at h
    cases hm : matchPatternAt hdr bd (c0 :: s0) with
    | some q =>
      obtain ⟨qr, qc⟩ := q
      rw [hm] at h
      have hp : qr = r ∧ qc = cap := by simpa using h
      obtain ⟨h1, h2⟩ := hp
      subst h1; subst h2
      exact matchPatternAt_shape hdr bd (c0 :: s0) _ _ hm
    | none =>
      rw [hm] at h
      exact ih r cap h

theorem capture_spec (bd : Str → Bool) (r cap : Str)
    (hshape : ∃ c t, r = c :: t ∧ cap = c :: lazyCaptureGo bd t) :
    (∃ rest, r = cap ++ rest) ∧
    ∀ j, 1 ≤ j → j < cap.length → bd (List.drop j r) = false := by
  obtain ⟨c, t, hr, hcap⟩ := hshape
  subst hr; subst hcap
  constructor
  · obtain ⟨rest, hrest⟩ := lazyCaptureGo_append bd t
    exact ⟨rest, by rw [List.cons_append, ← hrest]⟩
  · intro j h1 h2
    cases j with
    | zero => omega
    | succ k =>
      have hk : k < (lazyCaptureGo bd t).length := by
        simp at h2
        omega
      have hres := lazyCaptureGo_no_boundary bd t k hk
      simpa using hres

/- ## Claims C4 and C5 -/

/-- Claim C4 (amended): the span captured by the unit search never extends past the
first boundary of the winning pattern — the next unit label it recognises, a
"Course Outcomes" / "Text Books" / "References" label, or end of text — that begins at
least one character after the capture start: no boundary matches strictly inside the
capture.  The original claim fails when a boundary begins at the very first captured
character (the lazy capture consumes at least one character before the lookahead is
ever tested), so a "Course Outcomes" marker sitting immediately after the unit header
is swallowed together with the text beyond it (see the counterexample). -/
theorem unit_capture_boundary (text unit : Str) (p : Nat) (r cap : Str)
    (h : unitSearchFull text unit = some (p, r, cap)) :
    (∃ rest, r = cap ++ rest) ∧
    ∀ j, 1 ≤ j → j < cap.length → boundaryAt p (List.drop j r) = false := by
  unfold unitSearchFull at h
  cases h1 : findPattern (hdr1 unit) bd1 text with
  | some q =>
    obtain ⟨qr, qc⟩ := q
    rw [h1] at h
    have hp : 1 = p ∧ qr = r ∧ qc = cap := by simpa using h
    obtain ⟨hp1, hp2, hp3⟩ := hp
    subst hp1; subst hp2; subst hp3
    exact capture_spec bd1 qr qc (findPattern_shape _ _ _ _ _ h1)
  | none =>
    rw [h1] at h
    cases h2 : findPattern (hdr2 unit) bd2 text with
    | some q =>
      obtain ⟨qr, qc⟩ := q
      rw [h2] at h
      have hp : 2 = p ∧ qr = r ∧ qc = cap := by simpa using h
      obtain ⟨hp1, hp2, hp3⟩ := hp
      subst hp1; subst hp2; subst hp3
      exact capture_spec bd2 qr qc (findPattern_shape _ _ _ _ _ h2)
    | none =>
      rw [h2] at h
      cases h3 : findPattern (hdr3 unit) bd2 text with
      | some q =>
        obtain ⟨qr, qc⟩ := q
        rw [h3] at h
        have hp : 3 = p ∧ qr = r ∧ qc = cap := by simpa using h
        obtain ⟨hp1, hp2, hp3⟩ := hp
        subst hp1; subst hp2; subst hp3
        exact capture_spec bd2 qr qc (findPattern_shape _ _ _ _ _ h3)
      | none =>
        rw [h3] at h
        simp at h

/-- Witness for the amended C4: on `"Unit 1: aa Unit 2: bb"` with unit `"1"`, pattern 1
matches, the capture `" aa "` is a prefix of the post-header text, and no boundary
begins strictly inside it. -/
theorem unit_capture_boundary_witness :
    unitSearchFull ("Unit 1: aa Unit 2: bb".toList) ("1".toList)
      = some (1, " aa Unit 2: bb".toList, " aa ".toList) ∧
    (∃ rest, " aa Unit 2: bb".toList = " aa ".toList ++ rest) ∧
    ∀ j, 1 ≤ j → j < (" aa ".toList : Str).length →
      boundaryAt 1 (List.drop j (" aa Unit 2: bb".toList)) = false := by
  have h0 : unitSearchFull ("Unit 1: aa Unit 2: bb".toList) ("1".toList)
      = some (1, " aa Unit 2: bb".toList, " aa ".toList) := by decide
  exact ⟨h0, (unit_capture_boundary _ _ _ _ _ h0).1, (unit_capture_boundary _ _ _ _ _ h0).2⟩

/-- Counterexample for C4 as stated: in
`"Unit 1:Course Outcomes blah Unit 2: x"` the "Course Outcomes" marker lies between the
two unit labels, yet the captured span for unit 1 is `"Course Outcomes blah "` — it
contains the whole marker (which matches at its head) plus 6 further characters
beyond it. -/
theorem unit_capture_cex :
    unitContent ("Unit 1:Course Outcomes blah Unit 2: x".toList) ("1".toList)
      = some ("Course Outcomes blah ".toList) ∧
    (courseOutcomesAt ("Course Outcomes blah ".toList)).isSome = true ∧
    ("Course Outcomes".toList : Str).length < ("Course Outcomes blah ".toList : Str).length := by
  decide

/-- Claim C5 (confirmed): subject search tries its patterns in the fixed order
Course-Title-labelled form, raw substring, flexible-whitespace form, then normalized
line scan, and the first pattern that matches determines the anchor; in particular when
the Course-Title-labelled pattern matches anywhere, its leftmost match is the anchor
regardless of the other patterns. -/
theorem subject_pattern_priority (text subject : Str) (i : Nat) :
    (findCourseTitle text subject = some i → subjectAnchor text subject = some i) ∧
    (findCourseTitle text subject = none → findRawSubject text subject = some i →
      subjectAnchor text subject = some i) ∧
    (findCourseTitle text subject = none → findRawSubject text subject = none →
      findFlexible text subject = some i → subjectAnchor text subject = some i) ∧
    (findCourseTitle text subject = none → findRawSubject text subject = none →
      findFlexible text subject = none →
      subjectAnchor text subject = fallbackScan text subject) := by
  refine ⟨fun h1 => ?_, fun h1 h2 => ?_, fun h1 h2 h3 => ?_, fun h1 h2 h3 => ?_⟩
  · simp [subjectAnchor, h1]
  · simp [subjectAnchor, h1, h2]
  · simp [subjectAnchor, h1, h2, h3]
  · simp [subjectAnchor, h1, h2, h3]

/-- Witness for C5: the text contains the bare subject at index 0 and a
`"Course Title: Networks"` occurrence at index 15; the labelled occurrence wins. -/
theorem subject_pattern_priority_witness :
    findCourseTitle ("Networks intro\nCourse Title: Networks".toList) ("Networks".toList)
      = some 15 ∧
    findRawSubject ("Networks intro\nCourse Title: Networks".toList) ("Networks".toList)
      = some 0 ∧
    subjectAnchor ("Networks intro\nCourse Title: Networks".toList) ("Networks".toList)
      = some 15 :=
  ⟨by decide, by decide, (subject_pattern_priority _ _ 15).1 (by decide)⟩

/- ## Dispatch-loop lemmas -/

theorem fateOf_skipped {env : String → String} {reformat : Bool} {n : String}
    (h1 : availableFunctionNames.contains n = false) :
    fateOf env reformat n = .skipped := by
  unfold fateOf; rw [if_pos h1]

theorem fateOf_returned {env : String → String} {reformat : Bool} {n : String}
    (h1 : ¬ availableFunctionNames.contains n = false)
    (h2 : (n = "get_attendance" ∨ n = "get_timetable") ∧ reformat = false) :
    fateOf env reformat n = .returned n (env n) := by
  unfold fateOf; rw [if_neg h1, if_pos h2]

theorem fateOf_returnedDoc {env : String → String} {reformat : Bool} {n : String}
    (h1 : ¬ availableFunctionNames.contains n = false)
    (h2 : ¬ ((n = "get_attendance" ∨ n = "get_timetable") ∧ reformat = false))
    (h3 : n = "query_document") :
    fateOf env reformat n = .returnedDoc n := by
  unfold fateOf; rw [if_neg h1, if_neg h2, if_pos h3]

theorem fateOf_resulted {env : String → String} {reformat : Bool} {n : String}
    (h1 : ¬ availableFunctionNames.contains n = false)
    (h2 : ¬ ((n = "get_attendance" ∨ n = "get_timetable") ∧ reformat = false))
    (h3 : ¬ n = "query_document") :
    fateOf env reformat n = .resulted := by
  unfold fateOf; rw [if_neg h1, if_neg h2, if_neg h3]

theorem dispatchTrace_cons_skipped {env : String → String} {reformat : Bool}
    {c : String} {rest : List String}
    (h1 : availableFunctionNames.contains c = false) :
    dispatchTrace env reformat (c :: rest)
      = .skipped :: dispatchTrace env reformat rest := by
  conv_lhs => unfold dispatchTrace
  rw [if_pos h1]

theorem dispatchTrace_cons_returned {env : String → String} {reformat : Bool}
    {c : String} {rest : List String}
    (h1 : ¬ availableFunctionNames.contains c = false)
    (h2 : (c = "get_attendance" ∨ c = "get_timetable") ∧ reformat = false) :
    dispatchTrace env reformat (c :: rest)
      = .returned c (env c) :: rest.map (fun _ => .unreached) := by
  conv_lhs => unfold dispatchTrace
  rw [if_neg h1, if_pos h2]

theorem dispatchTrace_cons_returnedDoc {env : String → String} {reformat : Bool}
    {c : String} {rest : List String}
    (h1 : ¬ availableFunctionNames.contains c = false)
    (h2 : ¬ ((c = "get_attendance" ∨ c = "get_timetable") ∧ reformat = false))
    (h3 : c = "query_document") :
    dispatchTrace env reformat (c :: rest)
      = .returnedDoc c :: rest.map (fun _ => .unreached) := by
  conv_lhs => unfold dispatchTrace
  rw [if_neg h1, if_neg h2, if_pos h3]

theorem dispatchTrace_cons_resulted {env : String → String} {reformat : Bool}
    {c : String} {rest : List String}
    (h1 : ¬ availableFunctionNames.contains c = false)
    (h2 : ¬ ((c = "get_attendance" ∨ c = "get_timetable") ∧ reformat = false))
    (h3 : ¬ c = "query_document") :
    dispatchTrace env reformat (c :: rest)
      = .resulted :: dispatchTrace env reformat rest := by
  conv_lhs => unfold dispatchTrace
  rw [if_neg h1, if_neg h2, if_neg h3]

theorem dispatchTrace_fate (env : String → String) (reformat : Bool) :
    ∀ (calls : List String) (i : Nat) (n : String),
      calls[i]? = some n →
      (∀ j, j < i → ∀ f, (dispatchTrace env reformat calls)[j]? = some f →
        f.isTerminal = false) →
      (dispatchTrace env reformat calls)[i]? = some (fateOf env reformat n) := by
  intro calls
  induction calls with
  | nil => intro i n hn _; simp at hn
  | cons c rest ih =>
    intro i n hn hprior
    by_cases h1 : availableFunctionNames.contains c = false
    · rw [dispatchTrace_cons_skipped h1] at hprior ⊢
      cases i with
      | zero =>
        have hcn : c = n := by simpa using hn
        subst hcn
        rw [fateOf_skipped h1]
        simp
      | succ k =>
        have hn' : rest[k]? = some n := by simpa using hn
        have hp' : ∀ j, j < k → ∀ f, (dispatchTrace env reformat rest)[j]? = some f →
            f.isTerminal = false := by
          intro j hj f hf
          exact hprior (j + 1) (by omega) f (by simpa using hf)
        simpa using ih k n hn' hp'
    · by_cases h2 : (c = "get_attendance" ∨ c = "get_timetable") ∧ reformat = false
      · rw [dispatchTrace_cons_returned h1 h2] at hprior ⊢
        cases i with
        | zero =>
          have hcn : c = n := by simpa using hn
          subst hcn
          rw [fateOf_returned h1 h2]
          simp
        | succ k =>
          exfalso
          have hbad := hprior 0 (by omega) (.returned c (env c)) (by simp)
          simp [CallFate.isTerminal] at hbad
      · by_cases h3 : c = "query_document"
        · rw [dispatchTrace_cons_returnedDoc h1 h2 h3] at hprior ⊢
          cases i with
          | zero =>
            have hcn : c = n := by simpa using hn
            subst hcn
            rw [fateOf_returnedDoc h1 h2 h3]
            simp
          | succ k =>
            exfalso
            have hbad := hprior 0 (by omega) (.returnedDoc c) (by simp)
            simp [CallFate.isTerminal] at hbad
        · rw [dispatchTrace_cons_resulted h1 h2 h3] at hprior ⊢
          cases i with
          | zero =>
            have hcn : c = n := by simpa using hn
            subst hcn
            rw [fateOf_resulted h1 h2 h3]
            simp
          | succ k =>
            have hn' : rest[k]? = some n := by simpa using hn
            have hp' : ∀ j, j < k → ∀ f, (dispatchTrace env reformat rest)[j]? = some f →
                f.isTerminal = false := by
              intro j hj f hf
              exact hprior (j + 1) (by omega) f (by simpa using hf)
            simpa using ih k n hn' hp'

theorem dispatchTrace_unreached (env : String → String) (reformat : Bool) :
    ∀ (calls : List String) (i j : Nat) (f : CallFate),
      j < i → (dispatchTrace env reformat calls)[j]? = some f → f.isTerminal = true →
      i < calls.length →
      (dispatchTrace env reformat calls)[i]? = some .unreached := by
  intro calls
  induction calls with
  | nil => intro i j f _ _ _ hi; simp at hi
  | cons c rest ih =>
    intro i j f hj hf hft hi
    by_cases h1 : availableFunctionNames.contains c = false
    · rw [dispatchTrace_cons_skipped h1] at hf ⊢
      cases j with
      | zero =>
        have hfs : CallFate.skipped = f := by simpa using hf
        rw [← hfs] at hft
        simp [CallFate.isTerminal] at hft
      | succ k =>
        cases i with
        | zero => omega
        | succ m =>
          have hf' : (dispatchTrace env reformat rest)[k]? = some f := by simpa using hf
          have hm : m < rest.length := by simp at hi; omega
          simpa using ih m k f (by omega) hf' hft hm
    · by_cases h2 : (c = "get_attendance" ∨ c = "get_timetable") ∧ reformat = false
      · rw [dispatchTrace_cons_returned h1 h2]
        cases i with
        | zero => omega
        | succ m =>
          have hm : m < rest.length := by simp at hi; omega
          obtain ⟨x, hsome⟩ : ∃ x, rest[m]? = some x := ⟨_, List.getElem?_eq_getElem hm⟩
          rw [List.getElem?_cons_succ, List.getElem?_map, hsome]
          rfl
      · by_cases h3 : c = "query_document"
        · rw [dispatchTrace_cons_returnedDoc h1 h2 h3]
          cases i with
          | zero => omega
          | succ m =>
            have hm : m < rest.length := by simp at hi; omega
            obtain ⟨x, hsome⟩ : ∃ x, rest[m]? = some x := ⟨_, List.getElem?_eq_getElem hm⟩
            rw [List.getElem?_cons_succ, List.getElem?_map, hsome]
            rfl
        · rw [dispatchTrace_cons_resulted h1 h2 h3] at hf ⊢
          cases j with
          | zero =>
            have hfs : CallFate.resulted = f := by simpa using hf
            rw [← hfs] at hft
            simp [CallFate.isTerminal] at hft
          | succ k =>
            cases i with
            | zero => omega
            | succ m =>
              have hf' : (dispatchTrace env reformat rest)[k]? = some f := by
                simpa using hf
              have hm : m < rest.length := by simp at hi; omega
              simpa using ih m k f (by omega) hf' hft hm

theorem fateOf_known (env : String → String) (reformat : Bool) (n : String)
    (hk : ¬ availableFunctionNames.contains n = false) :
    fateOf env reformat n ≠ .skipped ∧ fateOf env reformat n ≠ .unreached := by
  by_cases h2 : (n = "get_attendance" ∨ n = "get_timetable") ∧ reformat = false
  · rw [fateOf_returned hk h2]
    exact ⟨fun h => CallFate.noConfusion h, fun h => CallFate.noConfusion h⟩
  · by_cases h3 : n = "query_document"
    · rw [fateOf_returnedDoc hk h2 h3]
      exact ⟨fun h => CallFate.noConfusion h, fun h => CallFate.noConfusion h⟩
    · rw [fateOf_resulted hk h2 h3]
      exact ⟨fun h => CallFate.noConfusion h, fun h => CallFate.noConfusion h⟩

/- ## Claims C8 and C10 -/

/-- Claim C8 (amended): an invocation in the model's tool-call list produces neither a
tool-result message nor a terminal response exactly when its name is not a key of the
tool table (it is skipped by `continue`) or it follows an invocation that ended the
request (attendance/timetable direct return or a `query_document` turn); every other
invocation is consumed in order and yields a tool-result message or a terminal
response.  The original claim that no invocation is ever silently dropped fails on
unknown names (see the counterexample). -/
theorem dispatch_drop_characterization (env : String → String) (reformat : Bool)
    (calls : List String) (i : Nat) (n : String) (h : calls[i]? = some n) :
    ((dispatchTrace env reformat calls)[i]? = some .skipped ∨
      (dispatchTrace env reformat calls)[i]? = some .unreached) ↔
    (availableFunctionNames.contains n = false ∨
      ∃ j, j < i ∧ ∃ f, (dispatchTrace env reformat calls)[j]? = some f ∧
        f.isTerminal = true) := by
  have hilen : i < calls.length := by
    by_contra hge
    rw [List.getElem?_eq_none (by omega)] at h
    exact Option.noConfusion h
  by_cases hterm : ∃ j, j < i ∧ ∃ f, (dispatchTrace env reformat calls)[j]? = some f ∧
      f.isTerminal = true
  · obtain ⟨j, hj, f, hf, hft⟩ := hterm
    have hu := dispatchTrace_unreached env reformat calls i j f hj hf hft hilen
    constructor
    · intro _; right; exact ⟨j, hj, f, hf, hft⟩
    · intro _; right; exact hu
  · have hfate : (dispatchTrace env reformat calls)[i]? = some (fateOf env reformat n) := by
      refine dispatchTrace_fate env reformat calls i n h ?_
      intro j hj f hf
      by_contra hb
      exact hterm ⟨j, hj, f, hf, by simpa using hb⟩
    rw [hfate]
    by_cases hk : availableFunctionNames.contains n = false
    · constructor
      · intro _; left; exact hk
      · intro _
        left
        rw [fateOf_skipped hk]
    · constructor
      · intro hcase
        exfalso
        rcases hcase with hc | hc
        · exact (fateOf_known env reformat n hk).1 (by simpa using hc)
        · exact (fateOf_known env reformat n hk).2 (by simpa using hc)
      · intro hcase
        rcases hcase with hc | hc
        · exact absurd hc hk
        · exact absurd hc hterm

/-- Witness for the amended C8: in `["get_syllabus_from_pdf", "bogus_tool"]` the second
invocation is dropped precisely because its name is not in the tool table (no earlier
invocation ended the request). -/
theorem dispatch_drop_characterization_witness :
    ((dispatchTrace (fun _ => "") false ["get_syllabus_from_pdf", "bogus_tool"])[1]?
        = some .skipped ∨
      (dispatchTrace (fun _ => "") false ["get_syllabus_from_pdf", "bogus_tool"])[1]?
        = some .unreached) ↔
    (availableFunctionNames.contains "bogus_tool" = false ∨
      ∃ j, j < 1 ∧ ∃ f,
        (dispatchTrace (fun _ => "") false ["get_syllabus_from_pdf", "bogus_tool"])[j]?
          = some f ∧ f.isTerminal = true) :=
  dispatch_drop_characterization (fun _ => "") false
    ["get_syllabus_from_pdf", "bogus_tool"] 1 "bogus_tool" (by decide)

/-- Counterexample for C8 as stated: an invocation whose name is not in the tool
catalog is silently skipped — it produces neither a tool-result message
(`CallFate.resulted`) nor a terminal response. -/
theorem dispatch_drop_cex :
    ¬ (∀ f ∈ dispatchTrace (fun _ => "") false ["bogus_tool"],
        f = CallFate.resulted ∨ f.isTerminal = true) := by decide

/-- Claim C10 (confirmed): when the message history has at most two messages,
`isReformatRequest` is false regardless of the latest user text — even one containing
"table", "format", "different", or "show" — so a reached `get_attendance` or
`get_timetable` invocation returns its result verbatim to the caller with `tool_used`
set; the keyword-based reformatting branch can fire only for histories longer than two
messages. -/
theorem direct_return_short_history (messagesLength : Nat) (userMessage : String)
    (env : String → String) (calls : List String) (i : Nat) (n : String)
    (hlen : messagesLength ≤ 2)
    (hn : calls[i]? = some n)
    (hname : n = "get_attendance" ∨ n = "get_timetable")
    (hprior : ∀ j, j < i → ∀ f,
      (dispatchTrace env (isReformatRequest messagesLength userMessage) calls)[j]?
        = some f → f.isTerminal = false) :
    isReformatRequest messagesLength userMessage = false ∧
    (dispatchTrace env (isReformatRequest messagesLength userMessage) calls)[i]?
      = some (.returned n (env n)) := by
  have href : isReformatRequest messagesLength userMessage = false := by
    unfold isReformatRequest
    have hdec : decide (2 < messagesLength) = false := by
      simp only [decide_eq_false_iff_not]
      omega
    rw [hdec]
    rfl
  refine ⟨href, ?_⟩
  have hfate := dispatchTrace_fate env (isReformatRequest messagesLength userMessage)
    calls i n hn hprior
  rw [hfate]
  have hk : ¬ availableFunctionNames.contains n = false := by
    rcases hname with h | h <;> subst h <;> decide
  rw [fateOf_returned hk ⟨hname, href⟩]

/-- Witness for C10: a two-message history whose latest user text contains both "show"
and "table" still direct-returns the attendance result verbatim. -/
theorem direct_return_short_history_witness :
    isReformatRequest 2 "please show a table" = false ∧
    (dispatchTrace (fun _ => "report") (isReformatRequest 2 "please show a table")
        ["get_attendance"])[0]?
      = some (.returned "get_attendance" "report") :=
  direct_return_short_history 2 "please show a table" (fun _ => "report")
    ["get_attendance"] 0 "get_attendance" (by decide) (by decide) (Or.inl rfl)
    (fun j hj _ _ => absurd hj (Nat.not_lt_zero j))
